import Mathlib

/-!
Packet-line framing, `git/pkt_line.go`.

A shallow embedding of the packet reader and writer of `git/pkt_line.go`.

* A Go `[]byte` or `string` is a `List UInt8`; a `nil` slice returned next to an
  error is `none`.
* The input side of a `pktline` is the finite sequence of bytes that has not been
  consumed yet; a read past its end reports `io.EOF`.
* The output side is a `bufio.Writer` over a sink that accepts every write: the bytes
  already handed to the sink, and the bytes still held in the buffer.
* The functions of the Go standard library that the file calls (`io.ReadFull`,
  `ioutil.ReadAll` over `io.LimitReader`, `strconv.ParseInt`, `fmt.Sprintf("%04x")`,
  `strings.TrimSuffix`) are embedded next to the code that uses them.
-/

namespace PktLine

/-! ## Bytes and errors -/

/-- The bytes of an ASCII string literal. -/
def ascii (s : String) : List UInt8 :=
  s.toList.map (fun c => c.toNat.toUInt8)

/-- The two sentinel causes carried by a `strconv.NumError`. -/
inductive NumErrKind where
  | ErrSyntax
  | ErrRange
  deriving DecidableEq, Repr

/-- The error values that can reach a caller of this file. -/
inductive Error where
  /-- The sentinel `io.EOF`. -/
  | EOF
  /-- The sentinel `io.ErrUnexpectedEOF`. -/
  | ErrUnexpectedEOF
  /-- The sentinel `io.ErrShortBuffer`. -/
  | ErrShortBuffer
  /-- A `*strconv.NumError` with its `Func`, `Num` and `Err` fields -/
  | NumError (Func : String) (Num : List UInt8) (Err : NumErrKind)
  /-- The value of `errors.New(text)`. -/
  | New (text : String)
  deriving DecidableEq, Repr

/-- The constant `MaxPacketLength` is the maximum total (header+payload) length encode-able within
one packet using Git's pkt-line protocol. -/
def MaxPacketLength : Nat := 65516

/-! ## Standard library: `strconv.ParseInt(s, 16, 0)` -/

/-- The helper `lower(c)` of `strconv`: `c | ('x' - 'X')`. -/
def lower (c : UInt8) : UInt8 := c ||| 0x20

/-- The digit `switch` of `strconv.ParseUint` (base given explicitly, so no underscore
case): the value `d` of the byte `c`, or `none` for the `default` branch. -/
def digitOf (c : UInt8) : Option UInt8 :=
  if 48 ≤ c ∧ c ≤ 57 then some (c - 48)
  else if 97 ≤ lower c ∧ lower c ≤ 122 then some (lower c - 97 + 10)
  else none

/-- The loop of `strconv.ParseUint(s, 16, 64)` over the bytes of `s`, with the
accumulator `n` (a `uint64`); `s0` is the whole argument, kept for the error value. -/
def ParseUintLoop (s0 : List UInt8) : List UInt8 → Nat → Except Error Nat
  | [], n => .ok n
  | c :: cs, n =>
    match digitOf c with
    | none => .error (Error.NumError "ParseUint" s0 NumErrKind.ErrSyntax)
    | some d =>
      if d ≥ 16 then .error (Error.NumError "ParseUint" s0 NumErrKind.ErrSyntax)
      else if n ≥ (2 ^ 64 - 1) / 16 + 1 then
        .error (Error.NumError "ParseUint" s0 NumErrKind.ErrRange)
      else
        let m := (n * 16) % 2 ^ 64
        let n1 := (m + d.toNat) % 2 ^ 64
        if n1 < m ∨ n1 > 2 ^ 64 - 1 then
          .error (Error.NumError "ParseUint" s0 NumErrKind.ErrRange)
        else ParseUintLoop s0 cs n1

/-- Go `strconv.ParseUint(s, 16, 64)`. -/
def ParseUint (s : List UInt8) : Except Error Nat :=
  if s = [] then .error (Error.NumError "ParseUint" s NumErrKind.ErrSyntax)
  else ParseUintLoop s s 0

/-- Go `strconv.ParseInt(s, 16, 0)` on a platform whose `int` has 64 bits: an optional
leading sign, then `ParseUint`; the error value names `ParseInt` and the whole
argument. -/
def ParseInt (s : List UInt8) : Except Error Int :=
  match s with
  | [] => .error (Error.NumError "ParseInt" s NumErrKind.ErrSyntax)
  | c :: cs =>
    let neg : Bool := c = 45
    let s1 := if c = 43 then cs else if c = 45 then cs else s
    match ParseUint s1 with
    | .error (Error.NumError _ _ NumErrKind.ErrSyntax) =>
      .error (Error.NumError "ParseInt" s NumErrKind.ErrSyntax)
    | .error _ => .error (Error.NumError "ParseInt" s NumErrKind.ErrRange)
    | .ok un =>
      if !neg ∧ un ≥ 2 ^ 63 then .error (Error.NumError "ParseInt" s NumErrKind.ErrRange)
      else if neg ∧ un > 2 ^ 63 then .error (Error.NumError "ParseInt" s NumErrKind.ErrRange)
      else if neg then .ok (-(un : Int)) else .ok (un : Int)

/-! ## Standard library: `fmt.Sprintf("%04x", n)` -/

/-- The digit table `ldigits` of `fmt`. -/
def ldigits : List UInt8 := ascii "0123456789abcdefx"

/-- The digit loop of `fmt`'s integer formatting in base 16: the digits of `u`, most
significant first, put in front of `acc`. The first argument bounds the number of
iterations; `u` itself is always enough. -/
def fmtHex : Nat → Nat → List UInt8 → List UInt8
  | 0, u, acc => ldigits.getD (u % 16) 0 :: acc
  | fuel + 1, u, acc =>
    if u ≥ 16 then fmtHex fuel (u / 16) (ldigits.getD (u % 16) 0 :: acc)
    else ldigits.getD u 0 :: acc

/-- Go `fmt.Sprintf("%04x", n)` for `n ≥ 0`: lowercase hexadecimal digits, padded on the
left with `0` up to a width of four. -/
def Sprintf04x (n : Nat) : List UInt8 :=
  let ds := fmtHex n n []
  List.replicate (4 - ds.length) 48 ++ ds

/-! ## Standard library: readers -/

/-- Go `io.ReadFull(r, buf)` with `len(buf) = len` on a finite stream `r`: the bytes
stored in `buf`, the count `n`, the error, and the stream left unread. -/
def ReadFull (r : List UInt8) (len : Nat) : (List UInt8 × Nat × Option Error) × List UInt8 :=
  let got := r.take len
  if got.length ≥ len then ((got, got.length, none), r.drop len)
  else if got.length = 0 then ((got, 0, some Error.EOF), r.drop len)
  else ((got, got.length, some Error.ErrUnexpectedEOF), r.drop len)

/-- Go `ioutil.ReadAll(io.LimitReader(r, n))` on a finite stream `r`: at most `n` bytes,
fewer when the stream ends first; the end of the stream is not an error for
`ReadAll`. -/
def ReadAllLimit (r : List UInt8) (n : Int) : (List UInt8 × Option Error) × List UInt8 :=
  ((r.take n.toNat, none), r.drop n.toNat)

/-- Go `strings.HasSuffix`. -/
def HasSuffix (s suffix : List UInt8) : Bool :=
  decide (s.length ≥ suffix.length) && (s.drop (s.length - suffix.length) == suffix)

/-- Go `strings.TrimSuffix`. -/
def TrimSuffix (s suffix : List UInt8) : List UInt8 :=
  if HasSuffix s suffix then s.take (s.length - suffix.length) else s

/-! ## The codec state -/

/-- A `bufio.Writer` over a sink that never fails. Bytes written are held in `buf` until
`Flush` hands them to the sink. The library may hand bytes on earlier, when its own buffer
fills up; every write operation of `pktline` ends with `Flush`, after which the sink holds
the same bytes either way. -/
structure Writer where
  /-- bytes delivered to the underlying `io.Writer`, oldest first -/
  sink : List UInt8
  /-- bytes accepted by the writer and not yet delivered -/
  buf : List UInt8
  deriving DecidableEq, Repr

/-- The methods `(*bufio.Writer).Write` and `WriteString`. -/
def Writer.Write (w : Writer) (p : List UInt8) : Writer :=
  { w with buf := w.buf ++ p }

/-- The method `(*bufio.Writer).Flush`. -/
def Writer.Flush (w : Writer) : Writer :=
  { sink := w.sink ++ w.buf, buf := [] }

/-- The `pktline` struct: `r` is the part of the input stream not consumed yet, `w` the
buffered writer. -/
structure pktline where
  r : List UInt8
  w : Writer
  deriving DecidableEq, Repr

/-- The constructor `newPktline(r, w)` over an input stream holding `input` and an empty sink. -/
def newPktline (input : List UInt8) : pktline :=
  { r := input, w := { sink := [], buf := [] } }

/-! ## Reading -/

/-- Method `readPacket`: the payload (`none` is a `nil` slice), the error, and the state after
the call. -/
def readPacket (p : pktline) : (Option (List UInt8) × Option Error) × pktline :=
  match ReadFull p.r 4 with
  | ((_, _, some err), r1) => ((none, some err), { p with r := r1 })
  | ((pktLenHex, n, none), r1) =>
    if n ≠ 4 then ((none, some Error.ErrShortBuffer), { p with r := r1 })
    else
      match ParseInt pktLenHex with
      | .error err => ((none, some err), { p with r := r1 })
      | .ok pktLen =>
        if pktLen = 0 then ((none, none), { p with r := r1 })
        else if pktLen ≤ 4 then
          ((none, some (Error.New "Invalid packet length.")), { p with r := r1 })
        else
          match ReadAllLimit r1 (pktLen - 4) with
          | ((payload, err), r2) => ((some payload, err), { p with r := r2 })

/-- Method `readPacketText`: `string(data)` of a `nil` slice is the empty string. -/
def readPacketText (p : pktline) : (List UInt8 × Option Error) × pktline :=
  match readPacket p with
  | ((data, err), p1) => ((TrimSuffix (data.getD []) (ascii "\n"), err), p1)

/-- The `for` loop of `readPacketList`, run for at most `fuel` iterations; `none` when
the iterations are used up before the loop is left. -/
def readPacketListLoop :
    Nat → pktline → List (List UInt8) → Option ((List (List UInt8) × Option Error) × pktline)
  | 0, _, _ => none
  | fuel + 1, p, list =>
    match readPacketText p with
    | ((_, some err), p1) => some (([], some err), p1)
    | ((data, none), p1) =>
      if data.length = 0 then some ((list, none), p1)
      else readPacketListLoop fuel p1 (list ++ [data])

/-- Method `readPacketList`. Every iteration that does not leave the loop consumes input, so
one more iteration than there are unread bytes is enough. -/
def readPacketList (p : pktline) : Option ((List (List UInt8) × Option Error) × pktline) :=
  readPacketListLoop (p.r.length + 1) p []

/-! ## Writing -/

/-- Method `writePacket`: the error, and the state after the call. -/
def writePacket (p : pktline) (data : List UInt8) : Option Error × pktline :=
  if data.length > MaxPacketLength then
    (some (Error.New "Packet length exceeds maximal length"), p)
  else
    let w1 := p.w.Write (Sprintf04x (data.length + 4))
    let w2 := w1.Write data
    (none, { p with w := w2.Flush })

/-- Method `writeFlush`. -/
def writeFlush (p : pktline) : Option Error × pktline :=
  let w1 := p.w.Write (Sprintf04x 0)
  (none, { p with w := w1.Flush })

/-- Method `writePacketText`. -/
def writePacketText (p : pktline) (data : List UInt8) : Option Error × pktline :=
  writePacket p (data ++ ascii "\n")

/-- Method `writePacketList`: the `range` loop, then `writeFlush`. -/
def writePacketList (p : pktline) : List (List UInt8) → Option Error × pktline
  | [] => writeFlush p
  | i :: rest =>
    match writePacketText p i with
    | (some err, p1) => (some err, p1)
    | (none, p1) => writePacketList p1 rest

/-! ## Reference renderings used in the statements -/

/-- The value of an ASCII hexadecimal digit (`0-9`, `a-f`, `A-F`); `none` for any other
byte. -/
def hexDigitValue (c : UInt8) : Option Nat :=
  if 48 ≤ c ∧ c ≤ 57 then some (c.toNat - 48)
  else if 97 ≤ c ∧ c ≤ 102 then some (c.toNat - 87)
  else if 65 ≤ c ∧ c ≤ 70 then some (c.toNat - 55)
  else none

/-- The lowercase hexadecimal digit character of `d < 16`. -/
def lowerHexDigit (d : Nat) : UInt8 :=
  if d < 10 then (48 + d).toUInt8 else (87 + d).toUInt8

/-- The four-character, zero-padded, lowercase hexadecimal rendering of `n < 65536`. -/
def hex4 (n : Nat) : List UInt8 :=
  [lowerHexDigit (n / 4096 % 16), lowerHexDigit (n / 256 % 16), lowerHexDigit (n / 16 % 16),
    lowerHexDigit (n % 16)]

/-- What one step of the `ParseUint` loop accepts: the digit value when it is below the
base. -/
def hexStep (c : UInt8) : Option Nat :=
  match digitOf c with
  | none => none
  | some d => if d ≥ 16 then none else some d.toNat

/-- The wire bytes of a list of strings: one text packet per element, then a flush
packet. -/
def encodeList : List (List UInt8) → List UInt8
  | [] => ascii "0000"
  | s :: rest => hex4 (s.length + 5) ++ (s ++ ascii "\n") ++ encodeList rest

/-- The bytes `writePacketText` delivers to the sink for one string, on a codec that has
written nothing yet; no bytes when the string is rejected. -/
def textPacket (s : List UInt8) : List UInt8 :=
  (writePacketText (newPktline []) s).2.w.sink

/-- The text packets of the strings of a list, in list order, with no flush packet. -/
def textPackets : List (List UInt8) → List UInt8
  | [] => []
  | s :: rest => textPacket s ++ textPackets rest

/-- A byte string with its last byte removed when that byte is a newline, and unchanged
otherwise. -/
def stripOneNewline (d : List UInt8) : List UInt8 :=
  if d.getLast? = some 10 then d.dropLast else d

/-- The wire bytes of payloads framed one after the other: for each payload the four-digit
header of its length plus four, then the payload itself. -/
def framedPackets : List (List UInt8) → List UInt8
  | [] => []
  | d :: ds => hex4 (d.length + 4) ++ d ++ framedPackets ds

/-- One `writePacket` call per payload, in turn, on the same codec; the calls stop at the
first error. -/
def writePackets (q : pktline) : List (List UInt8) → Option Error × pktline
  | [] => (none, q)
  | d :: ds =>
    match writePacket q d with
    | (some err, q1) => (some err, q1)
    | (none, q1) => writePackets q1 ds

/-- The results of `n` successive `readPacket` calls on the same codec, in call order, and
the state after the last call. -/
def readPackets : Nat → pktline → List (Option (List UInt8) × Option Error) × pktline
  | 0, p => ([], p)
  | n + 1, p =>
    match readPacket p with
    | (res, p1) =>
      match readPackets n p1 with
      | (results, p2) => (res :: results, p2)

/-! ## Hexadecimal headers -/

theorem ofNat_toNat (c : UInt8) : UInt8.ofNat c.toNat = c := by
  apply UInt8.ext
  exact UInt8.toNat_ofNat_of_lt (UInt8.toNat_lt c)

set_option maxRecDepth 100000 in
theorem hexStep_eq_aux :
    ∀ i : Fin 256, hexStep (UInt8.ofNat i.val) = hexDigitValue (UInt8.ofNat i.val) := by
  decide

/-- The digit switch of `ParseUint` in base 16 accepts exactly the ASCII hexadecimal
digits, with their usual values. -/
theorem hexStep_eq (c : UInt8) : hexStep c = hexDigitValue c := by
  have h := hexStep_eq_aux ⟨c.toNat, UInt8.toNat_lt c⟩
  simpa only [ofNat_toNat] using h

set_option maxRecDepth 100000 in
theorem hexDigitValue_lt_aux :
    ∀ i : Fin 256, ∀ v ∈ hexDigitValue (UInt8.ofNat i.val), v < 16 := by
  decide

theorem hexDigitValue_lt (c : UInt8) (v : Nat) (h : hexDigitValue c = some v) : v < 16 := by
  have h1 := hexDigitValue_lt_aux ⟨c.toNat, UInt8.toNat_lt c⟩ v
  simp only [ofNat_toNat] at h1
  exact h1 (by simp [h])

theorem hexDigitValue_lowerHexDigit_aux :
    ∀ d : Fin 16, hexDigitValue (lowerHexDigit d.val) = some d.val := by
  decide

theorem hexDigitValue_lowerHexDigit (d : Nat) (h : d < 16) :
    hexDigitValue (lowerHexDigit d) = some d :=
  hexDigitValue_lowerHexDigit_aux ⟨d, h⟩

theorem ldigits_getD_aux : ∀ d : Fin 16, ldigits.getD d.val 0 = lowerHexDigit d.val := by
  decide

theorem ldigits_getD (d : Nat) (h : d < 16) : ldigits.getD d 0 = lowerHexDigit d :=
  ldigits_getD_aux ⟨d, h⟩

theorem ParseUintLoop_cons (s0 : List UInt8) (c : UInt8) (cs : List UInt8) (n : Nat)
    (hn : n < 2 ^ 60) :
    ParseUintLoop s0 (c :: cs) n =
      match hexDigitValue c with
      | none => .error (Error.NumError "ParseUint" s0 NumErrKind.ErrSyntax)
      | some v => ParseUintLoop s0 cs (n * 16 + v) := by
  have hlt := hexDigitValue_lt c
  rw [← hexStep_eq] at hlt ⊢
  unfold hexStep at hlt ⊢
  rw [ParseUintLoop]
  cases hd : digitOf c with
  | none => simp
  | some d =>
    simp only [hd] at hlt ⊢
    by_cases h16 : d ≥ 16
    · simp [h16]
    · have hv : d.toNat < 16 := hlt d.toNat (by simp [h16])
      have h1 : ¬ (n ≥ (2 ^ 64 - 1) / 16 + 1) := by omega
      have h2 : (n * 16) % 2 ^ 64 = n * 16 := Nat.mod_eq_of_lt (by omega)
      have h3 : (n * 16 + d.toNat) % 2 ^ 64 = n * 16 + d.toNat := Nat.mod_eq_of_lt (by omega)
      simp only [h16, h1, h2, h3, if_false]
      rw [if_neg (by omega)]

theorem hexDigitValue_ne_sign (c : UInt8) (v : Nat) (h : hexDigitValue c = some v) :
    c ≠ 43 ∧ c ≠ 45 := by
  have h43 : hexDigitValue 43 = none := by decide
  have h45 : hexDigitValue 45 = none := by decide
  constructor <;> intro hc <;> subst hc <;> simp_all

/-- Four hexadecimal digits, in either case, parse to the number they spell. -/
theorem ParseInt_hex4 (a b c d : UInt8) (va vb vc vd : Nat)
    (ha : hexDigitValue a = some va) (hb : hexDigitValue b = some vb)
    (hc : hexDigitValue c = some vc) (hd : hexDigitValue d = some vd) :
    ParseInt [a, b, c, d] = .ok ((((va * 16 + vb) * 16 + vc) * 16 + vd : Nat) : Int) := by
  have la := hexDigitValue_lt a va ha
  have lb := hexDigitValue_lt b vb hb
  have lc := hexDigitValue_lt c vc hc
  have ld := hexDigitValue_lt d vd hd
  obtain ⟨hp, hm⟩ := hexDigitValue_ne_sign a va ha
  have hu : ParseUint [a, b, c, d] = .ok (((va * 16 + vb) * 16 + vc) * 16 + vd) := by
    unfold ParseUint
    rw [if_neg (by simp)]
    rw [ParseUintLoop_cons _ _ _ _ (by omega), ha]
    simp only
    rw [ParseUintLoop_cons _ _ _ _ (by omega), hb]
    simp only
    rw [ParseUintLoop_cons _ _ _ _ (by omega), hc]
    simp only
    rw [ParseUintLoop_cons _ _ _ _ (by omega), hd]
    simp only [ParseUintLoop, Nat.zero_mul, Nat.zero_add]
  unfold ParseInt
  simp only [hp, hm, if_false, hu, decide_False]
  rw [if_neg (by simp; omega)]
  simp

theorem lowerHexDigit_zero : lowerHexDigit 0 = 48 := by decide

theorem fmtHex_unfold (fuel u : Nat) (acc : List UInt8) (h : u ≤ fuel) :
    fmtHex fuel u acc =
      if u ≥ 16 then fmtHex (fuel - 1) (u / 16) (ldigits.getD (u % 16) 0 :: acc)
      else ldigits.getD u 0 :: acc := by
  cases fuel with
  | zero =>
    have h0 : u = 0 := by omega
    subst h0
    simp [fmtHex]
  | succ k => simp [fmtHex]

/-- For a number below `65536` the format `%04x` yields exactly four lowercase digits. -/
theorem Sprintf04x_eq (n : Nat) (h : n < 65536) : Sprintf04x n = hex4 n := by
  unfold Sprintf04x hex4
  rw [fmtHex_unfold n n [] (le_refl n)]
  by_cases h1 : n ≥ 16
  · rw [if_pos h1, fmtHex_unfold _ _ _ (by omega)]
    by_cases h2 : n / 16 ≥ 16
    · rw [if_pos h2, fmtHex_unfold _ _ _ (by omega)]
      by_cases h3 : n / 16 / 16 ≥ 16
      · rw [if_pos h3, fmtHex_unfold _ _ _ (by omega)]
        rw [if_neg (by omega)]
        rw [ldigits_getD _ (by omega), ldigits_getD _ (by omega), ldigits_getD _ (by omega),
          ldigits_getD _ (by omega)]
        have e1 : n / 16 / 16 / 16 = n / 4096 % 16 := by omega
        have e2 : n / 16 / 16 % 16 = n / 256 % 16 := by omega
        simp [e1, e2]
      · rw [if_neg h3]
        rw [ldigits_getD _ (by omega), ldigits_getD _ (by omega), ldigits_getD _ (by omega)]
        have e1 : n / 4096 % 16 = 0 := by omega
        have e2 : n / 16 / 16 = n / 256 % 16 := by omega
        simp [e1, e2, lowerHexDigit_zero]
    · rw [if_neg h2]
      rw [ldigits_getD _ (by omega), ldigits_getD _ (by omega)]
      have e1 : n / 4096 % 16 = 0 := by omega
      have e2 : n / 256 % 16 = 0 := by omega
      have e3 : n / 16 = n / 16 % 16 := by omega
      simp only [e1, e2]
      rw [← e3]
      simp [lowerHexDigit_zero]
  · rw [if_neg h1]
    rw [ldigits_getD _ (by omega)]
    have e1 : n / 4096 % 16 = 0 := by omega
    have e2 : n / 256 % 16 = 0 := by omega
    have e3 : n / 16 % 16 = 0 := by omega
    have e4 : n % 16 = n := by omega
    simp [e1, e2, e3, e4, lowerHexDigit_zero]

theorem hex4_length (n : Nat) : (hex4 n).length = 4 := rfl

/-- The header written by `%04x` parses back to the number it was made from. -/
theorem ParseInt_hex4_self (n : Nat) (h : n < 65536) : ParseInt (hex4 n) = .ok (n : Int) := by
  unfold hex4
  rw [ParseInt_hex4 _ _ _ _ (n / 4096 % 16) (n / 256 % 16) (n / 16 % 16) (n % 16)
    (hexDigitValue_lowerHexDigit _ (by omega)) (hexDigitValue_lowerHexDigit _ (by omega))
    (hexDigitValue_lowerHexDigit _ (by omega)) (hexDigitValue_lowerHexDigit _ (by omega))]
  congr 2
  omega

/-! ## One packet -/

theorem ReadFull_four (a b c d : UInt8) (rest : List UInt8) :
    ReadFull (a :: b :: c :: d :: rest) 4 = (([a, b, c, d], 4, none), rest) := by
  simp [ReadFull]

/-- What `readPacket` does once four header bytes are available. -/
theorem readPacket_header (a b c d : UInt8) (rest : List UInt8) (w : Writer) :
    readPacket ⟨a :: b :: c :: d :: rest, w⟩ =
      match ParseInt [a, b, c, d] with
      | .error err => ((none, some err), ⟨rest, w⟩)
      | .ok pktLen =>
        if pktLen = 0 then ((none, none), ⟨rest, w⟩)
        else if pktLen ≤ 4 then ((none, some (Error.New "Invalid packet length.")), ⟨rest, w⟩)
        else ((some (rest.take (pktLen - 4).toNat), none), ⟨rest.drop (pktLen - 4).toNat, w⟩) := by
  unfold readPacket
  simp only [ReadFull_four, ne_eq, not_true_eq_false, if_false, ReadAllLimit]

/-- A header of value `v ≥ 5` in front of at least `v - 4` bytes: the payload is the
next `v - 4` bytes and the rest of the stream stays unread. -/
theorem readPacket_payload (a b c d : UInt8) (v : Nat) (body rest : List UInt8) (w : Writer)
    (hp : ParseInt [a, b, c, d] = .ok (v : Int)) (hv : 5 ≤ v) (hb : body.length = v - 4) :
    readPacket ⟨a :: b :: c :: d :: (body ++ rest), w⟩ = ((some body, none), ⟨rest, w⟩) := by
  rw [readPacket_header, hp]
  have e : ((v : Int) - 4).toNat = body.length := by omega
  simp only [e]
  rw [if_neg (by omega), if_neg (by omega)]
  simp

/-- A packet as the writer frames it, followed by anything, is read back whole. -/
theorem readPacket_frame (data rest : List UInt8) (w : Writer)
    (h1 : 1 ≤ data.length) (h2 : data.length + 4 < 65536) :
    readPacket ⟨hex4 (data.length + 4) ++ data ++ rest, w⟩ = ((some data, none), ⟨rest, w⟩) := by
  have hp := ParseInt_hex4_self (data.length + 4) h2
  unfold hex4 at hp ⊢
  simp only [List.cons_append, List.nil_append, List.append_assoc]
  exact readPacket_payload _ _ _ _ (data.length + 4) data rest w hp (by omega) (by omega)

/-- An accepted payload leaves the writer flushed, with header and payload appended to
what the sink and the buffer held. -/
theorem writePacket_ok (q : pktline) (data : List UInt8) (h : data.length ≤ MaxPacketLength) :
    writePacket q data =
      (none, ⟨q.r, ⟨q.w.sink ++ q.w.buf ++ hex4 (data.length + 4) ++ data, []⟩⟩) := by
  unfold MaxPacketLength at h
  unfold writePacket
  rw [if_neg (by unfold MaxPacketLength; omega), Sprintf04x_eq _ (by omega)]
  simp [Writer.Write, Writer.Flush]

theorem writePacket_too_large (q : pktline) (data : List UInt8)
    (h : data.length > MaxPacketLength) :
    writePacket q data = (some (Error.New "Packet length exceeds maximal length"), q) := by
  unfold writePacket
  rw [if_pos h]

/-! ## Text packets and lists -/

theorem TrimSuffix_newline (s : List UInt8) : TrimSuffix (s ++ ascii "\n") (ascii "\n") = s := by
  have e : ascii "\n" = [10] := by decide
  simp [TrimSuffix, HasSuffix, e]

theorem readPacket_flush (rest : List UInt8) (w : Writer) :
    readPacket ⟨ascii "0000" ++ rest, w⟩ = ((none, none), ⟨rest, w⟩) := by
  have e : ascii "0000" = [48, 48, 48, 48] := by decide
  have hp : ParseInt [48, 48, 48, 48] = .ok 0 :=
    ParseInt_hex4 48 48 48 48 0 0 0 0 (by decide) (by decide) (by decide) (by decide)
  rw [e]
  simp only [List.cons_append, List.nil_append]
  rw [readPacket_header, hp]
  rfl

theorem readPacketText_flush (rest : List UInt8) (w : Writer) :
    readPacketText ⟨ascii "0000" ++ rest, w⟩ = (([], none), ⟨rest, w⟩) := by
  unfold readPacketText
  rw [readPacket_flush]
  rfl

/-- A text packet as the writer frames it, followed by anything, is read back as the
text without its newline. -/
theorem readPacketText_frame (s rest : List UInt8) (w : Writer)
    (h : s.length + 1 ≤ MaxPacketLength) :
    readPacketText ⟨hex4 (s.length + 5) ++ (s ++ ascii "\n") ++ rest, w⟩ =
      ((s, none), ⟨rest, w⟩) := by
  unfold MaxPacketLength at h
  have hl : (s ++ ascii "\n").length = s.length + 1 := by
    rw [List.length_append]; rfl
  have hf := readPacket_frame (s ++ ascii "\n") rest w (by omega) (by omega)
  rw [hl] at hf
  unfold readPacketText
  rw [hf]
  simp [TrimSuffix_newline]

theorem writeFlush_eq (q : pktline) :
    writeFlush q = (none, ⟨q.r, ⟨q.w.sink ++ q.w.buf ++ ascii "0000", []⟩⟩) := by
  have e : Sprintf04x 0 = ascii "0000" := by decide
  simp [writeFlush, Writer.Write, Writer.Flush, e]

theorem writePacketText_ok (q : pktline) (s : List UInt8) (h : s.length + 1 ≤ MaxPacketLength) :
    writePacketText q s =
      (none, ⟨q.r, ⟨q.w.sink ++ q.w.buf ++ hex4 (s.length + 5) ++ (s ++ ascii "\n"), []⟩⟩) := by
  have hl : (s ++ ascii "\n").length = s.length + 1 := by
    rw [List.length_append]; rfl
  unfold writePacketText
  rw [writePacket_ok _ _ (by omega), hl]

/-- When every element is accepted, `writePacketList` delivers the text packets in order
and then one flush packet. -/
theorem writePacketList_ok (l : List (List UInt8)) :
    ∀ q : pktline, (∀ s ∈ l, s.length + 1 ≤ MaxPacketLength) →
      writePacketList q l = (none, ⟨q.r, ⟨q.w.sink ++ q.w.buf ++ encodeList l, []⟩⟩) := by
  induction l with
  | nil =>
    intro q _
    simp [writePacketList, writeFlush_eq, encodeList]
  | cons s rest ih =>
    intro q h
    have hs := h s (List.mem_cons_self _ _)
    have hr : ∀ t ∈ rest, t.length + 1 ≤ MaxPacketLength :=
      fun t ht => h t (List.mem_cons_of_mem _ ht)
    rw [writePacketList, writePacketText_ok q s hs]
    simp only
    rw [ih _ hr]
    simp [encodeList]

theorem encodeList_length (l : List (List UInt8)) : l.length ≤ (encodeList l).length := by
  induction l with
  | nil => simp [encodeList]
  | cons s rest ih =>
    simp only [encodeList, List.length_cons, List.length_append, hex4_length]
    omega

/-- The loop of `readPacketList` over the wire bytes of a list of non-empty strings:
it appends the strings to what it had and stops right after the flush packet. -/
theorem readPacketListLoop_encodeList (l : List (List UInt8)) :
    ∀ (fuel : Nat) (acc : List (List UInt8)) (rest : List UInt8) (w : Writer),
      (∀ s ∈ l, s ≠ [] ∧ s.length + 1 ≤ MaxPacketLength) → l.length + 1 ≤ fuel →
      readPacketListLoop fuel ⟨encodeList l ++ rest, w⟩ acc =
        some ((acc ++ l, none), ⟨rest, w⟩) := by
  induction l with
  | nil =>
    intro fuel acc rest w _ hf
    obtain ⟨k, rfl⟩ : ∃ k, fuel = k + 1 := ⟨fuel - 1, by omega⟩
    simp [readPacketListLoop, encodeList, readPacketText_flush]
  | cons s tl ih =>
    intro fuel acc rest w h hf
    obtain ⟨k, rfl⟩ : ∃ k, fuel = k + 1 := ⟨fuel - 1, by simp at hf; omega⟩
    obtain ⟨hne, hs⟩ := h s (List.mem_cons_self _ _)
    have hr : ∀ t ∈ tl, t ≠ [] ∧ t.length + 1 ≤ MaxPacketLength :=
      fun t ht => h t (List.mem_cons_of_mem _ ht)
    have hlen : s.length ≠ 0 := fun h0 => hne (List.length_eq_zero.mp h0)
    rw [readPacketListLoop]
    simp only [encodeList, List.append_assoc]
    have hf2 := readPacketText_frame s (encodeList tl ++ rest) w hs
    simp only [List.append_assoc] at hf2
    rw [hf2]
    simp only [hlen, if_false]
    rw [ih k (acc ++ [s]) rest w hr (by simp at hf; omega)]
    simp

/-- The wire bytes of a list of non-empty strings, followed by anything, are read back
by `readPacketList` as that list, and the bytes after the flush packet stay unread. -/
theorem readPacketList_encodeList (l : List (List UInt8)) (rest : List UInt8) (w : Writer)
    (h : ∀ s ∈ l, s ≠ [] ∧ s.length + 1 ≤ MaxPacketLength) :
    readPacketList ⟨encodeList l ++ rest, w⟩ = some ((l, none), ⟨rest, w⟩) := by
  unfold readPacketList
  have hl := encodeList_length l
  rw [readPacketListLoop_encodeList l _ [] rest w h (by simp; omega)]
  simp

/-! ## Progress of the list reader -/

theorem TrimSuffix_length_le (s t : List UInt8) : (TrimSuffix s t).length ≤ s.length := by
  unfold TrimSuffix
  split
  · rw [List.length_take]; omega
  · exact le_refl _

/-- A call of `readPacketText` that returns a non-empty text and no error has consumed at
least five bytes of the input and has left the writer alone. -/
theorem readPacketText_consumes (p p1 : pktline) (data : List UInt8)
    (h : readPacketText p = ((data, none), p1)) (hd : data.length ≠ 0) :
    p1.r.length + 5 ≤ p.r.length ∧ p1.w = p.w := by
  obtain ⟨r, w⟩ := p
  match r, h with
  | [], h => simp [readPacketText, readPacket, ReadFull] at h
  | [_], h => simp [readPacketText, readPacket, ReadFull] at h
  | [_, _], h => simp [readPacketText, readPacket, ReadFull] at h
  | [_, _, _], h => simp [readPacketText, readPacket, ReadFull] at h
  | a :: b :: c :: d :: rest, h =>
    unfold readPacketText at h
    rw [readPacket_header] at h
    cases hp : ParseInt [a, b, c, d] with
    | error e => rw [hp] at h; simp at h
    | ok v =>
      rw [hp] at h
      simp only at h
      by_cases h0 : v = 0
      · rw [if_pos h0] at h
        simp only [Option.getD_none, Prod.mk.injEq] at h
        have := TrimSuffix_length_le [] (ascii "\n")
        rw [h.1.1] at this
        exact absurd (Nat.le_zero.mp this) hd
      · rw [if_neg h0] at h
        by_cases h4 : v ≤ 4
        · rw [if_pos h4] at h; simp at h
        · rw [if_neg h4] at h
          simp only [Option.getD_some, Prod.mk.injEq] at h
          obtain ⟨⟨hdata, _⟩, hp1⟩ := h
          have hle := TrimSuffix_length_le (List.take (v - 4).toNat rest) (ascii "\n")
          rw [hdata, List.length_take] at hle
          subst hp1
          simp only [List.length_drop, List.length_cons]
          refine ⟨?_, trivial⟩
          omega

/-- The loop of `readPacketList` is left within one iteration more than a fifth of the
unread bytes. -/
theorem readPacketListLoop_isSome (fuel : Nat) :
    ∀ (p : pktline) (acc : List (List UInt8)), p.r.length / 5 < fuel →
      (readPacketListLoop fuel p acc).isSome = true := by
  induction fuel with
  | zero => intro p acc h; omega
  | succ k ih =>
    intro p acc h
    rw [readPacketListLoop]
    rcases hrt : readPacketText p with ⟨⟨data, err⟩, p1⟩
    cases err with
    | some e => rfl
    | none =>
      simp only
      by_cases hd : data.length = 0
      · rw [if_pos hd]; rfl
      · rw [if_neg hd]
        have hc := (readPacketText_consumes p p1 data hrt hd).1
        exact ih p1 _ (by omega)

/-- On every finite input `readPacketList` returns. -/
theorem readPacketList_isSome (p : pktline) : (readPacketList p).isSome = true :=
  readPacketListLoop_isSome _ p [] (by omega)

/-! ## Supporting facts on rejection and malformed headers -/

/-- The only payloads `writePacket` rejects are those longer than `MaxPacketLength`. -/
theorem writePacket_rejects_iff (q : pktline) (data : List UInt8) :
    (writePacket q data).1 = some (Error.New "Packet length exceeds maximal length") ↔
      data.length > 65516 := by
  by_cases hl : data.length ≤ MaxPacketLength
  · rw [writePacket_ok q data hl]
    unfold MaxPacketLength at hl
    simp
    omega
  · rw [writePacket_too_large q data (by omega)]
    unfold MaxPacketLength at hl
    simp
    omega

/-- Without a leading sign, four bytes of which one is not a hexadecimal digit do not
parse. -/
theorem ParseInt_malformed (a b c d : UInt8) (hp : a ≠ 43) (hm : a ≠ 45)
    (h : hexDigitValue a = none ∨ hexDigitValue b = none ∨ hexDigitValue c = none ∨
      hexDigitValue d = none) :
    ParseInt [a, b, c, d] = .error (Error.NumError "ParseInt" [a, b, c, d] NumErrKind.ErrSyntax) := by
  have hu : ParseUint [a, b, c, d] =
      .error (Error.NumError "ParseUint" [a, b, c, d] NumErrKind.ErrSyntax) := by
    unfold ParseUint
    rw [if_neg (by simp)]
    rw [ParseUintLoop_cons _ _ _ _ (by omega)]
    cases ha : hexDigitValue a with
    | none => rfl
    | some va =>
      have la := hexDigitValue_lt a va ha
      simp only
      rw [ParseUintLoop_cons _ _ _ _ (by omega)]
      cases hb : hexDigitValue b with
      | none => rfl
      | some vb =>
        have lb := hexDigitValue_lt b vb hb
        simp only
        rw [ParseUintLoop_cons _ _ _ _ (by omega)]
        cases hc : hexDigitValue c with
        | none => rfl
        | some vc =>
          have lc := hexDigitValue_lt c vc hc
          simp only
          rw [ParseUintLoop_cons _ _ _ _ (by omega)]
          cases hd : hexDigitValue d with
          | none => rfl
          | some vd => simp [ha, hb, hc, hd] at h
  unfold ParseInt
  simp only [hp, hm, if_false, hu]

/-- A header without a leading sign that holds a byte that is not a hexadecimal digit
makes `readPacket` return the parse error and no payload. -/
theorem readPacket_malformed (a b c d : UInt8) (rest : List UInt8) (w : Writer)
    (hp : a ≠ 43) (hm : a ≠ 45)
    (h : hexDigitValue a = none ∨ hexDigitValue b = none ∨ hexDigitValue c = none ∨
      hexDigitValue d = none) :
    readPacket ⟨a :: b :: c :: d :: rest, w⟩ =
      ((none, some (Error.NumError "ParseInt" [a, b, c, d] NumErrKind.ErrSyntax)), ⟨rest, w⟩) := by
  rw [readPacket_header, ParseInt_malformed a b c d hp hm h]

/-! ## Text packets, acceptance and the header alphabet -/

theorem writePacket_accepted_iff (q : pktline) (data : List UInt8) :
    (writePacket q data).1 = none ↔ data.length ≤ MaxPacketLength := by
  by_cases hl : data.length ≤ MaxPacketLength
  · rw [writePacket_ok q data hl]
    simp [hl]
  · rw [writePacket_too_large q data (by omega)]
    simp [hl]

theorem length_append_newline (s : List UInt8) : (s ++ ascii "\n").length = s.length + 1 := by
  rw [List.length_append]; rfl

theorem writePacketText_accepted_iff (q : pktline) (s : List UInt8) :
    (writePacketText q s).1 = none ↔ s.length + 1 ≤ MaxPacketLength := by
  unfold writePacketText
  rw [writePacket_accepted_iff, length_append_newline]

theorem writePacketText_too_large (q : pktline) (s : List UInt8)
    (h : ¬ s.length + 1 ≤ MaxPacketLength) :
    writePacketText q s = (some (Error.New "Packet length exceeds maximal length"), q) := by
  unfold writePacketText
  rw [writePacket_too_large q _ (by rw [length_append_newline]; omega)]

theorem textPacket_eq (s : List UInt8) (h : s.length + 1 ≤ MaxPacketLength) :
    textPacket s = hex4 (s.length + 5) ++ (s ++ ascii "\n") := by
  unfold textPacket
  rw [writePacketText_ok _ s h]
  simp [newPktline]

theorem encodeList_eq_textPackets (l : List (List UInt8))
    (h : ∀ s ∈ l, s.length + 1 ≤ MaxPacketLength) :
    encodeList l = textPackets l ++ ascii "0000" := by
  induction l with
  | nil => rfl
  | cons s rest ih =>
    have hs := h s (List.mem_cons_self _ _)
    have hr : ∀ t ∈ rest, t.length + 1 ≤ MaxPacketLength :=
      fun t ht => h t (List.mem_cons_of_mem _ ht)
    simp only [encodeList, textPackets, textPacket_eq s hs, ih hr, List.append_assoc]

theorem lowerHexDigit_range_aux :
    ∀ d : Fin 16, (48 ≤ lowerHexDigit d.val ∧ lowerHexDigit d.val ≤ 57) ∨
      (97 ≤ lowerHexDigit d.val ∧ lowerHexDigit d.val ≤ 102) := by
  decide

/-- Every character of the four-digit rendering is one of `0-9` or `a-f`. -/
theorem hex4_lowercase (n : Nat) (c : UInt8) (hc : c ∈ hex4 n) :
    (48 ≤ c ∧ c ≤ 57) ∨ (97 ≤ c ∧ c ≤ 102) := by
  unfold hex4 at hc
  simp only [List.mem_cons, List.mem_singleton, List.not_mem_nil, or_false] at hc
  rcases hc with h | h | h | h <;> subst h
  · exact lowerHexDigit_range_aux ⟨n / 4096 % 16, by omega⟩
  · exact lowerHexDigit_range_aux ⟨n / 256 % 16, by omega⟩
  · exact lowerHexDigit_range_aux ⟨n / 16 % 16, by omega⟩
  · exact lowerHexDigit_range_aux ⟨n % 16, by omega⟩

/-- When every element before `x` is accepted and `x` is rejected, `writePacketList`
returns the error of `x` after delivering the text packets of the elements before it. -/
theorem writePacketList_rejected (pre : List (List UInt8)) (x : List UInt8)
    (post : List (List UInt8)) :
    ∀ q : pktline, q.w.buf = [] → (∀ s ∈ pre, s.length + 1 ≤ MaxPacketLength) →
      ¬ x.length + 1 ≤ MaxPacketLength →
      writePacketList q (pre ++ x :: post) =
        (some (Error.New "Packet length exceeds maximal length"),
          ⟨q.r, ⟨q.w.sink ++ textPackets pre, []⟩⟩) := by
  induction pre with
  | nil =>
    intro q hb _ hx
    obtain ⟨r, ⟨sink, buf⟩⟩ := q
    simp only at hb
    subst hb
    simp [writePacketList, writePacketText_too_large _ x hx, textPackets]
  | cons s rest ih =>
    intro q hb h hx
    have hs := h s (List.mem_cons_self _ _)
    have hr : ∀ t ∈ rest, t.length + 1 ≤ MaxPacketLength :=
      fun t ht => h t (List.mem_cons_of_mem _ ht)
    rw [List.cons_append, writePacketList, writePacketText_ok q s hs]
    simp only
    rw [ih _ rfl hr hx, hb]
    simp [textPackets, textPacket_eq s hs]

/-! ## The list reader on arbitrary tails, and newline stripping -/

theorem textPackets_length (l : List (List UInt8))
    (h : ∀ s ∈ l, s.length + 1 ≤ MaxPacketLength) : l.length ≤ (textPackets l).length := by
  induction l with
  | nil => simp [textPackets]
  | cons s rest ih =>
    have hs := h s (List.mem_cons_self _ _)
    have hr : ∀ t ∈ rest, t.length + 1 ≤ MaxPacketLength :=
      fun t ht => h t (List.mem_cons_of_mem _ ht)
    have := ih hr
    simp only [textPackets, textPacket_eq s hs, List.length_cons, List.length_append,
      hex4_length]
    omega

/-- The loop of `readPacketList` reads the text packets of non-empty strings one per
iteration, appends the strings to what it had, and goes on with the bytes behind them. -/
theorem readPacketListLoop_textPackets (l : List (List UInt8)) :
    ∀ (fuel : Nat) (acc : List (List UInt8)) (tail : List UInt8) (w : Writer),
      (∀ s ∈ l, s ≠ [] ∧ s.length + 1 ≤ MaxPacketLength) →
      readPacketListLoop (l.length + fuel) ⟨textPackets l ++ tail, w⟩ acc =
        readPacketListLoop fuel ⟨tail, w⟩ (acc ++ l) := by
  induction l with
  | nil =>
    intro fuel acc tail w _
    simp [textPackets]
  | cons s tl ih =>
    intro fuel acc tail w h
    obtain ⟨hne, hs⟩ := h s (List.mem_cons_self _ _)
    have hr : ∀ t ∈ tl, t ≠ [] ∧ t.length + 1 ≤ MaxPacketLength :=
      fun t ht => h t (List.mem_cons_of_mem _ ht)
    have hlen : s.length ≠ 0 := fun h0 => hne (List.length_eq_zero.mp h0)
    have e : (s :: tl).length + fuel = (tl.length + fuel) + 1 := by
      simp only [List.length_cons]; omega
    rw [e, readPacketListLoop]
    simp only [textPackets, textPacket_eq s hs, List.append_assoc]
    have hf := readPacketText_frame s (textPackets tl ++ tail) w hs
    simp only [List.append_assoc] at hf
    rw [hf]
    simp only [hlen, if_false]
    rw [ih fuel (acc ++ [s]) tail w hr]
    simp

/-- Whatever the loop of `readPacketList` returns next to an error is the nil list. -/
theorem readPacketListLoop_error_nil (fuel : Nat) :
    ∀ (p : pktline) (acc : List (List UInt8))
      (r : (List (List UInt8) × Option Error) × pktline),
      readPacketListLoop fuel p acc = some r → r.1.2 = none ∨ r.1.1 = [] := by
  induction fuel with
  | zero => intro p acc r h; simp [readPacketListLoop] at h
  | succ k ih =>
    intro p acc r h
    rw [readPacketListLoop] at h
    rcases hrt : readPacketText p with ⟨⟨data, err⟩, p1⟩
    rw [hrt] at h
    cases err with
    | some e =>
      simp only [Option.some.injEq] at h
      subst h
      exact Or.inr rfl
    | none =>
      simp only at h
      by_cases hd : data.length = 0
      · rw [if_pos hd] at h
        simp only [Option.some.injEq] at h
        subst h
        exact Or.inl rfl
      · rw [if_neg hd] at h
        exact ih p1 _ r h

theorem TrimSuffix_eq_stripOneNewline (s : List UInt8) :
    TrimSuffix s (ascii "\n") = stripOneNewline s := by
  have e : ascii "\n" = [10] := by decide
  rw [e]
  rcases List.eq_nil_or_concat s with rfl | ⟨init, x, rfl⟩
  · decide
  · by_cases hx : x = 10
    · subst hx
      simp [TrimSuffix, HasSuffix, stripOneNewline]
    · simp [TrimSuffix, HasSuffix, stripOneNewline, hx]

theorem ParseInt_error_kind (s : List UInt8) (e : Error) (h : ParseInt s = .error e) :
    e ≠ Error.ErrShortBuffer := by
  unfold ParseInt at h
  split at h
  · simp only [Except.error.injEq] at h
    subst h
    simp
  · simp only at h
    split at h
    · simp only [Except.error.injEq] at h
      subst h
      simp
    · simp only [Except.error.injEq] at h
      subst h
      simp
    · split at h
      · simp only [Except.error.injEq] at h
        subst h
        simp
      · split at h
        · simp only [Except.error.injEq] at h
          subst h
          simp
        · split at h <;> simp at h

/-- No call of `readPacket` returns `io.ErrShortBuffer`: the branch that would return it
is never taken, because `io.ReadFull` reports an error of its own whenever it stored fewer
than four bytes. -/
theorem readPacket_never_ErrShortBuffer (p : pktline) :
    (readPacket p).1.2 ≠ some Error.ErrShortBuffer := by
  obtain ⟨r, w⟩ := p
  match r with
  | [] => simp [readPacket, ReadFull]
  | [_] => simp [readPacket, ReadFull]
  | [_, _] => simp [readPacket, ReadFull]
  | [_, _, _] => simp [readPacket, ReadFull]
  | a :: b :: c :: d :: rest =>
    rw [readPacket_header]
    cases hp : ParseInt [a, b, c, d] with
    | error e =>
      have := ParseInt_error_kind _ e hp
      simpa using this
    | ok v =>
      simp only
      split
      · simp
      · split <;> simp

/-! ## Streams of packets and the bound on the list reader -/

theorem writePackets_ok (ps : List (List UInt8)) :
    ∀ q : pktline, q.w.buf = [] → (∀ d ∈ ps, d.length ≤ MaxPacketLength) →
      writePackets q ps = (none, ⟨q.r, ⟨q.w.sink ++ framedPackets ps, []⟩⟩) := by
  induction ps with
  | nil =>
    intro q hb _
    obtain ⟨r, ⟨sink, buf⟩⟩ := q
    simp only at hb
    subst hb
    simp [writePackets, framedPackets]
  | cons d ds ih =>
    intro q hb h
    have hd := h d (List.mem_cons_self _ _)
    have hr : ∀ t ∈ ds, t.length ≤ MaxPacketLength :=
      fun t ht => h t (List.mem_cons_of_mem _ ht)
    rw [writePackets, writePacket_ok q d hd]
    simp only
    rw [ih _ rfl hr, hb]
    simp [framedPackets]

/-- Payloads framed one after the other are read back one per `readPacket` call, in
order, and the bytes behind them stay unread. -/
theorem readPackets_framedPackets (ps : List (List UInt8)) :
    ∀ (rest : List UInt8) (w : Writer),
      (∀ d ∈ ps, 1 ≤ d.length ∧ d.length ≤ MaxPacketLength) →
      readPackets ps.length ⟨framedPackets ps ++ rest, w⟩ =
        (ps.map (fun d => (some d, none)), ⟨rest, w⟩) := by
  induction ps with
  | nil =>
    intro rest w _
    simp [readPackets, framedPackets]
  | cons d ds ih =>
    intro rest w h
    obtain ⟨h1, h2⟩ := h d (List.mem_cons_self _ _)
    have hr : ∀ t ∈ ds, 1 ≤ t.length ∧ t.length ≤ MaxPacketLength :=
      fun t ht => h t (List.mem_cons_of_mem _ ht)
    unfold MaxPacketLength at h2
    have hf := readPacket_frame d (framedPackets ds ++ rest) w h1 (by omega)
    simp only [List.append_assoc] at hf
    simp only [List.length_cons, readPackets, framedPackets, List.append_assoc, hf,
      ih rest w hr, List.map_cons]

/-- A result the loop of `readPacketList` reaches within `fuel` iterations is the result
it reaches with any larger number of iterations allowed. -/
theorem readPacketListLoop_fuel_mono (fuel : Nat) :
    ∀ (p : pktline) (acc : List (List UInt8))
      (r : (List (List UInt8) × Option Error) × pktline) (k : Nat),
      readPacketListLoop fuel p acc = some r → readPacketListLoop (fuel + k) p acc = some r := by
  induction fuel with
  | zero => intro p acc r k h; simp [readPacketListLoop] at h
  | succ n ih =>
    intro p acc r k h
    have e : n + 1 + k = (n + k) + 1 := by omega
    rw [e, readPacketListLoop]
    rw [readPacketListLoop] at h
    rcases hrt : readPacketText p with ⟨⟨data, err⟩, p1⟩
    rw [hrt] at h
    cases err with
    | some e1 => exact h
    | none =>
      simp only at h ⊢
      by_cases hd : data.length = 0
      · rw [if_pos hd] at h ⊢
        exact h
      · rw [if_neg hd] at h ⊢
        exact ih p1 _ r k h

/-- The loop of `readPacketList` only ever appends non-empty strings. -/
theorem readPacketListLoop_nonempty (fuel : Nat) :
    ∀ (p : pktline) (acc : List (List UInt8))
      (r : (List (List UInt8) × Option Error) × pktline),
      (∀ s ∈ acc, s ≠ []) → readPacketListLoop fuel p acc = some r → ∀ s ∈ r.1.1, s ≠ [] := by
  induction fuel with
  | zero => intro p acc r _ h; simp [readPacketListLoop] at h
  | succ n ih =>
    intro p acc r hacc h
    rw [readPacketListLoop] at h
    rcases hrt : readPacketText p with ⟨⟨data, err⟩, p1⟩
    rw [hrt] at h
    cases err with
    | some e1 =>
      simp only [Option.some.injEq] at h
      subst h
      intro s hs
      simp at hs
    | none =>
      simp only at h
      by_cases hd : data.length = 0
      · rw [if_pos hd] at h
        simp only [Option.some.injEq] at h
        subst h
        exact hacc
      · rw [if_neg hd] at h
        refine ih p1 (acc ++ [data]) r ?_ h
        intro s hs
        rcases List.mem_append.mp hs with h1 | h1
        · exact hacc s h1
        · rw [List.mem_singleton] at h1
          subst h1
          exact fun h0 => hd (by rw [h0]; rfl)

/-! ## Claims -/

/-- C1, as amended: for every payload `p` with `1 ≤ len(p) ≤ 65512`, `writePacket(p)` on a
fresh codec returns no error, and `readPacket` over exactly the bytes delivered to the
sink returns `p` with no error and consumes all of them. -/
theorem writePacket_readPacket_roundtrip (p input : List UInt8) (w : Writer)
    (h1 : 1 ≤ p.length) (h2 : p.length ≤ 65512) :
    (writePacket (newPktline input) p).1 = none ∧
      readPacket ⟨(writePacket (newPktline input) p).2.w.sink, w⟩ =
        ((some p, none), ⟨[], w⟩) := by
  rw [writePacket_ok _ _ (by unfold MaxPacketLength; omega)]
  refine ⟨rfl, ?_⟩
  have h := readPacket_frame p [] w h1 (by omega)
  simpa [newPktline] using h

/-- Witness for C1 (amended): the one-byte payload `a` travels as `0005a`. -/
theorem writePacket_readPacket_roundtrip_witness :
    (writePacket (newPktline []) (ascii "a")).1 = none ∧
      readPacket ⟨(writePacket (newPktline []) (ascii "a")).2.w.sink, ⟨[], []⟩⟩ =
        ((some (ascii "a"), none), ⟨[], ⟨[], []⟩⟩) :=
  writePacket_readPacket_roundtrip (ascii "a") [] ⟨[], []⟩ (by decide) (by decide)

/-- C1, counterexample: the empty payload has length `0 ≤ 65512`; `writePacket` accepts it
and delivers `0004`, and `readPacket` over those bytes returns the error
"Invalid packet length." and no payload. -/
theorem writePacket_readPacket_empty_payload :
    ([] : List UInt8).length ≤ 65512 ∧
      writePacket (newPktline []) [] = (none, ⟨[], ⟨ascii "0004", []⟩⟩) ∧
      readPacket (newPktline (writePacket (newPktline []) []).2.w.sink) =
        ((none, some (Error.New "Invalid packet length.")), newPktline []) ∧
      (readPacket (newPktline (writePacket (newPktline []) []).2.w.sink)).1 ≠
        (some [], none) := by
  decide

/-- C2, the code at the failing input: a payload of 65513 bytes is accepted, and the
packet delivered to the sink is 65517 bytes long with header `ffed`. -/
theorem writePacket_accepts_65513 :
    (List.replicate 65513 (0 : UInt8)).length = 65513 ∧
      writePacket (newPktline []) (List.replicate 65513 0) =
        (none, ⟨[], ⟨ascii "ffed" ++ List.replicate 65513 0, []⟩⟩) ∧
      (writePacket (newPktline []) (List.replicate 65513 0)).2.w.sink.length = 65517 := by
  have hl : (List.replicate 65513 (0 : UInt8)).length = 65513 := List.length_replicate _ _
  have hw := writePacket_ok (newPktline []) (List.replicate 65513 0)
    (by rw [hl]; decide)
  rw [hl] at hw
  have hh : hex4 (65513 + 4) = ascii "ffed" := by decide
  rw [hh] at hw
  refine ⟨hl, ?_, ?_⟩
  · rw [hw]; rfl
  · rw [hw]
    show (ascii "ffed" ++ List.replicate 65513 (0 : UInt8)).length = 65517
    rw [List.length_append, hl]
    rfl

/-- C3, the code at the failing input: header `0010` announces 12 payload bytes; with only
the 5 bytes `hello` behind it `readPacket` returns those 5 bytes and a nil error. -/
theorem readPacket_truncated_payload :
    readPacket (newPktline (ascii "0010hello")) =
      ((some (ascii "hello"), none), newPktline []) := by
  decide

/-- C4, the code at the failing input: the header `+005` holds a byte that is not a
hexadecimal digit, yet `readPacket` takes it for the length 5 and returns the payload
`A` with a nil error. -/
theorem readPacket_signed_header :
    hexDigitValue 43 = none ∧
      readPacket (newPktline (ascii "+005A")) = ((some (ascii "A"), none), newPktline []) := by
  decide

/-- C5, as amended: for every list `l` of non-empty strings that each fit in one text
packet, `writePacketList(l)` on a fresh codec returns no error and `readPacketList` over
the bytes written returns exactly `l`, in order, with no error; for the empty list the
bytes written are the single flush packet `0000` and the list read back is empty. -/
theorem writePacketList_readPacketList_roundtrip (l : List (List UInt8)) (input : List UInt8)
    (w : Writer) (h : ∀ s ∈ l, s ≠ [] ∧ s.length + 1 ≤ MaxPacketLength) :
    (writePacketList (newPktline input) l).1 = none ∧
      readPacketList ⟨(writePacketList (newPktline input) l).2.w.sink, w⟩ =
        some ((l, none), ⟨[], w⟩) ∧
      (l = [] → (writePacketList (newPktline input) l).2.w.sink = ascii "0000") := by
  rw [writePacketList_ok l _ (fun s hs => (h s hs).2)]
  refine ⟨rfl, ?_, ?_⟩
  · have hr := readPacketList_encodeList l [] w h
    simpa [newPktline] using hr
  · intro hl
    subst hl
    rfl

/-- Witness for C5 (amended): the list `["a", "b"]`. -/
theorem writePacketList_readPacketList_roundtrip_witness :
    (writePacketList (newPktline []) [ascii "a", ascii "b"]).1 = none ∧
      readPacketList
          ⟨(writePacketList (newPktline []) [ascii "a", ascii "b"]).2.w.sink, ⟨[], []⟩⟩ =
        some (([ascii "a", ascii "b"], none), ⟨[], ⟨[], []⟩⟩) ∧
      ([ascii "a", ascii "b"] = [] →
        (writePacketList (newPktline []) [ascii "a", ascii "b"]).2.w.sink = ascii "0000") :=
  writePacketList_readPacketList_roundtrip [ascii "a", ascii "b"] [] ⟨[], []⟩ (by decide)

/-- C5, counterexample: the list holding one empty string. The empty string fits in a text
packet and `writePacketList` delivers `0005`, a newline and `0000`; `readPacketList` over
those bytes returns the empty list, not the list that was written. -/
theorem writePacketList_readPacketList_empty_string :
    writePacketList (newPktline []) [[]] = (none, ⟨[], ⟨ascii "0005\n0000", []⟩⟩) ∧
      readPacketList (newPktline (writePacketList (newPktline []) [[]]).2.w.sink) =
        some (([], none), newPktline (ascii "0000")) ∧
      ([] : List (List UInt8)) ≠ [[]] := by
  decide

/-- C6: on an input stream holding 0 bytes `readPacket` fails with `io.EOF`; on one holding
1, 2 or 3 bytes it fails with `io.ErrUnexpectedEOF`, which is a different error; in both
cases no payload is returned. -/
theorem readPacket_short_stream (q : pktline) (h : q.r.length < 4) :
    (q.r.length = 0 → readPacket q = ((none, some Error.EOF), q)) ∧
      (0 < q.r.length →
        readPacket q = ((none, some Error.ErrUnexpectedEOF), ⟨[], q.w⟩)) ∧
      Error.ErrUnexpectedEOF ≠ Error.EOF := by
  obtain ⟨r, w⟩ := q
  refine ⟨?_, ?_, by decide⟩
  · intro h0
    have hr : r = [] := List.length_eq_zero.mp h0
    subst hr
    rfl
  · intro hpos
    match r, h, hpos with
    | [_], _, _ => rfl
    | [_, _], _, _ => rfl
    | [_, _, _], _, _ => rfl
    | _ :: _ :: _ :: _ :: _, h, _ => exact absurd h (by simp)

/-- Witness for C6: a stream of the two bytes `00`. -/
theorem readPacket_short_stream_witness :
    ((newPktline (ascii "00")).r.length = 0 →
        readPacket (newPktline (ascii "00")) = ((none, some Error.EOF), newPktline (ascii "00"))) ∧
      (0 < (newPktline (ascii "00")).r.length →
        readPacket (newPktline (ascii "00")) =
          ((none, some Error.ErrUnexpectedEOF), ⟨[], (newPktline (ascii "00")).w⟩)) ∧
      Error.ErrUnexpectedEOF ≠ Error.EOF :=
  readPacket_short_stream (newPktline (ascii "00")) (by decide)

/-- C7: when `writePacket` accepts a payload, on a writer whose buffer was empty, the sink
has received, by the time the call returns, exactly the four lowercase hexadecimal
characters of `len(payload) + 4` followed by the payload, and the buffer is empty. -/
theorem writePacket_wire_format (q : pktline) (data : List UInt8)
    (hacc : (writePacket q data).1 = none) (hbuf : q.w.buf = []) :
    (writePacket q data).2 =
      ⟨q.r, ⟨q.w.sink ++ (hex4 (data.length + 4) ++ data), []⟩⟩ := by
  by_cases hl : data.length ≤ MaxPacketLength
  · rw [writePacket_ok q data hl, hbuf]
    simp
  · rw [writePacket_too_large q data (by omega)] at hacc
    simp at hacc

/-- Witness for C7: the payload `hello` and a newline goes out as `000ahello` and a
newline. -/
theorem writePacket_wire_format_witness :
    (writePacket (newPktline []) (ascii "hello\n")).2 =
      ⟨(newPktline []).r,
        ⟨(newPktline []).w.sink ++ (hex4 ((ascii "hello\n").length + 4) ++ ascii "hello\n"), []⟩⟩ :=
  writePacket_wire_format (newPktline []) (ascii "hello\n") (by decide) (by decide)

/-- C8: for a header of four hexadecimal digits, in either case, of value `v ≥ 5`, and a
stream holding at least `v - 4` bytes after it, `readPacket` returns exactly the next
`v - 4` bytes with no error and leaves every byte after them unread. The value is at most
`65535` and the reader applies no ceiling of its own. -/
theorem readPacket_decodes_payload (a b c d : UInt8) (va vb vc vd : Nat)
    (s : List UInt8) (w : Writer)
    (ha : hexDigitValue a = some va) (hb : hexDigitValue b = some vb)
    (hc : hexDigitValue c = some vc) (hd : hexDigitValue d = some vd)
    (hv : 5 ≤ ((va * 16 + vb) * 16 + vc) * 16 + vd)
    (hs : ((va * 16 + vb) * 16 + vc) * 16 + vd - 4 ≤ s.length) :
    readPacket ⟨a :: b :: c :: d :: s, w⟩ =
      ((some (s.take (((va * 16 + vb) * 16 + vc) * 16 + vd - 4)), none),
        ⟨s.drop (((va * 16 + vb) * 16 + vc) * 16 + vd - 4), w⟩) := by
  have hp := ParseInt_hex4 a b c d va vb vc vd ha hb hc hd
  have h := readPacket_payload a b c d _ (s.take (((va * 16 + vb) * 16 + vc) * 16 + vd - 4))
    (s.drop (((va * 16 + vb) * 16 + vc) * 16 + vd - 4)) w hp hv
    (by rw [List.length_take]; omega)
  rw [List.take_append_drop] at h
  exact h

/-- Witness for C8: header `ffff` in front of 65531 bytes yields a 65531-byte payload. -/
theorem readPacket_decodes_payload_witness :
    readPacket ⟨102 :: 102 :: 102 :: 102 :: List.replicate 65531 0, ⟨[], []⟩⟩ =
      ((some ((List.replicate 65531 (0 : UInt8)).take
          (((15 * 16 + 15) * 16 + 15) * 16 + 15 - 4)), none),
        ⟨(List.replicate 65531 (0 : UInt8)).drop (((15 * 16 + 15) * 16 + 15) * 16 + 15 - 4),
          ⟨[], []⟩⟩) :=
  readPacket_decodes_payload 102 102 102 102 15 15 15 15 (List.replicate 65531 0) ⟨[], []⟩
    (by decide) (by decide) (by decide) (by decide) (by decide)
    (by rw [List.length_replicate])

/-- C9: when the four header bytes parse to a value `v` with `0 < v ≤ 4`, `readPacket`
returns no payload and the error "Invalid packet length.", whatever follows the header. -/
theorem readPacket_invalid_length (q : pktline) (v : Int) (h4 : 4 ≤ q.r.length)
    (hp : ParseInt (q.r.take 4) = .ok v) (h0 : 0 < v) (hv : v ≤ 4) :
    readPacket q =
      ((none, some (Error.New "Invalid packet length.")), ⟨q.r.drop 4, q.w⟩) := by
  obtain ⟨r, w⟩ := q
  match r, h4, hp with
  | a :: b :: c :: d :: rest, _, hp =>
    simp only [List.take_succ_cons, List.take_zero] at hp
    rw [readPacket_header, hp]
    simp only
    rw [if_neg (by omega), if_pos hv]
    rfl

/-- Witness for C9: header `0003` followed by the bytes `xyz`. -/
theorem readPacket_invalid_length_witness :
    readPacket (newPktline (ascii "0003xyz")) =
      ((none, some (Error.New "Invalid packet length.")),
        ⟨(newPktline (ascii "0003xyz")).r.drop 4, (newPktline (ascii "0003xyz")).w⟩) :=
  readPacket_invalid_length (newPktline (ascii "0003xyz")) 3 (by decide)
    (ParseInt_hex4 48 48 48 51 0 0 0 3 (by decide) (by decide) (by decide) (by decide))
    (by decide) (by decide)

/-- C10: `writeFlush` delivers exactly the four bytes `0000` to the sink and leaves the
buffer empty; `readPacket` on any stream that begins with `0000` returns a nil payload and
a nil error after consuming exactly those four bytes; so `readPacket` over the output of
`writeFlush` returns the flush sentinel. -/
theorem writeFlush_readPacket_roundtrip (q : pktline) (rest input : List UInt8) (w : Writer) :
    writeFlush q = (none, ⟨q.r, ⟨q.w.sink ++ q.w.buf ++ ascii "0000", []⟩⟩) ∧
      (writeFlush (newPktline input)).2.w.sink = ascii "0000" ∧
      readPacket ⟨ascii "0000" ++ rest, w⟩ = ((none, none), ⟨rest, w⟩) ∧
      readPacket ⟨(writeFlush (newPktline input)).2.w.sink, w⟩ = ((none, none), ⟨[], w⟩) := by
  refine ⟨writeFlush_eq q, rfl, readPacket_flush rest w, ?_⟩
  have h := readPacket_flush [] w
  rw [List.append_nil] at h
  exact h

/-! ## Claims on text packets, rejection and list output -/

/-- C11: for every string `t` that fits in one text packet (`len(t) + 1` within the bound of
`writePacket`, the empty string and strings ending in a newline included),
`writePacketText(t)` returns no error and delivers the header of `len(t) + 5` followed by
`t` and one newline; `readPacket` over those bytes returns the payload `t` plus newline,
and `readPacketText` over them returns exactly `t` with no error. -/
theorem writePacketText_readPacketText_roundtrip (t input : List UInt8) (w : Writer)
    (h : t.length + 1 ≤ MaxPacketLength) :
    (writePacketText (newPktline input) t).1 = none ∧
      (writePacketText (newPktline input) t).2.w.sink =
        hex4 (t.length + 5) ++ (t ++ ascii "\n") ∧
      readPacket ⟨(writePacketText (newPktline input) t).2.w.sink, w⟩ =
        ((some (t ++ ascii "\n"), none), ⟨[], w⟩) ∧
      readPacketText ⟨(writePacketText (newPktline input) t).2.w.sink, w⟩ =
        ((t, none), ⟨[], w⟩) := by
  have hw := writePacketText_ok (newPktline input) t h
  have hs : (writePacketText (newPktline input) t).2.w.sink =
      hex4 (t.length + 5) ++ (t ++ ascii "\n") := by
    rw [hw]
    simp [newPktline]
  refine ⟨by rw [hw], hs, ?_, ?_⟩
  · rw [hs]
    have hf := readPacket_frame (t ++ ascii "\n") [] w
      (by rw [length_append_newline]; omega)
      (by rw [length_append_newline]; unfold MaxPacketLength at h; omega)
    rw [length_append_newline, List.append_nil] at hf
    exact hf
  · rw [hs]
    have hf := readPacketText_frame t [] w h
    rw [List.append_nil] at hf
    exact hf

/-- Witness for C11: the text `hello` goes out as `000ahello` and a newline, and comes back
as `hello`. -/
theorem writePacketText_readPacketText_roundtrip_witness :
    (writePacketText (newPktline []) (ascii "hello")).1 = none ∧
      (writePacketText (newPktline []) (ascii "hello")).2.w.sink = ascii "000ahello\n" ∧
      readPacket ⟨(writePacketText (newPktline []) (ascii "hello")).2.w.sink, ⟨[], []⟩⟩ =
        ((some (ascii "hello\n"), none), ⟨[], ⟨[], []⟩⟩) ∧
      readPacketText ⟨(writePacketText (newPktline []) (ascii "hello")).2.w.sink, ⟨[], []⟩⟩ =
        ((ascii "hello", none), ⟨[], ⟨[], []⟩⟩) :=
  writePacketText_readPacketText_roundtrip (ascii "hello") [] ⟨[], []⟩ (by decide)

/-- C12: when `writePacket` rejects a payload as too large, whatever the writer held
before, the state after the call is the state before it: the sink and the buffer hold the
same bytes. -/
theorem writePacket_rejection_writes_nothing (q : pktline) (data : List UInt8)
    (h : (writePacket q data).1 = some (Error.New "Packet length exceeds maximal length")) :
    (writePacket q data).2 = q ∧ (writePacket q data).2.w.sink = q.w.sink ∧
      (writePacket q data).2.w.buf = q.w.buf := by
  have hl : data.length > MaxPacketLength := (writePacket_rejects_iff q data).mp h
  rw [writePacket_too_large q data hl]
  exact ⟨rfl, rfl, rfl⟩

/-- Witness for C12: a payload of 65517 bytes offered to a writer that already delivered
`0005a` and still holds `x` in its buffer. -/
theorem writePacket_rejection_writes_nothing_witness :
    (writePacket ⟨[], ⟨ascii "0005a", ascii "x"⟩⟩ (List.replicate 65517 0)).2 =
        ⟨[], ⟨ascii "0005a", ascii "x"⟩⟩ ∧
      (writePacket ⟨[], ⟨ascii "0005a", ascii "x"⟩⟩ (List.replicate 65517 0)).2.w.sink =
        ascii "0005a" ∧
      (writePacket ⟨[], ⟨ascii "0005a", ascii "x"⟩⟩ (List.replicate 65517 0)).2.w.buf =
        ascii "x" :=
  writePacket_rejection_writes_nothing ⟨[], ⟨ascii "0005a", ascii "x"⟩⟩ (List.replicate 65517 0)
    ((writePacket_rejects_iff _ _).mpr (by rw [List.length_replicate]; decide))

/-- C13: for every payload that `writePacket` accepts, the header it writes is exactly
four characters long, each one of `0-9` or `a-f`, and the payload starts at byte offset 4
of the packet delivered to the sink. -/
theorem writePacket_header_width (q : pktline) (data : List UInt8)
    (hacc : (writePacket q data).1 = none) :
    (Sprintf04x (data.length + 4)).length = 4 ∧
      (∀ c ∈ Sprintf04x (data.length + 4), (48 ≤ c ∧ c ≤ 57) ∨ (97 ≤ c ∧ c ≤ 102)) ∧
      (writePacket q data).2.w.sink =
        q.w.sink ++ q.w.buf ++ (Sprintf04x (data.length + 4) ++ data) ∧
      (Sprintf04x (data.length + 4) ++ data).drop 4 = data := by
  have hl : data.length ≤ MaxPacketLength := (writePacket_accepted_iff q data).mp hacc
  have hx : Sprintf04x (data.length + 4) = hex4 (data.length + 4) :=
    Sprintf04x_eq _ (by unfold MaxPacketLength at hl; omega)
  rw [hx, writePacket_ok q data hl]
  refine ⟨rfl, fun c hc => hex4_lowercase _ c hc, ?_, ?_⟩
  · simp
  · simp [hex4]

/-- Witness for C13: the one-byte payload `a`. -/
theorem writePacket_header_width_witness :
    (Sprintf04x ((ascii "a").length + 4)).length = 4 ∧
      (∀ c ∈ Sprintf04x ((ascii "a").length + 4), (48 ≤ c ∧ c ≤ 57) ∨ (97 ≤ c ∧ c ≤ 102)) ∧
      (writePacket (newPktline []) (ascii "a")).2.w.sink =
        (newPktline []).w.sink ++ (newPktline []).w.buf ++
          (Sprintf04x ((ascii "a").length + 4) ++ ascii "a") ∧
      (Sprintf04x ((ascii "a").length + 4) ++ ascii "a").drop 4 = ascii "a" :=
  writePacket_header_width (newPktline []) (ascii "a") (by decide)

/-- C14: on a writer with an empty buffer, when every element of a list can be written as
a text packet, `writePacketList` returns no error and delivers the text packets of the
elements in list order followed by one flush packet `0000`; when the element `x` after
them is rejected, `writePacketList` returns the error of `x` and the sink has received
exactly the text packets of the elements before `x`: no later element, no flush packet. -/
theorem writePacketList_output (q : pktline) (pre post : List (List UInt8)) (x : List UInt8)
    (hbuf : q.w.buf = []) (hpre : ∀ s ∈ pre, (writePacketText q s).1 = none)
    (hx : (writePacketText q x).1 ≠ none) :
    writePacketList q pre =
        (none, ⟨q.r, ⟨q.w.sink ++ (textPackets pre ++ ascii "0000"), []⟩⟩) ∧
      writePacketList q (pre ++ x :: post) =
        ((writePacketText q x).1, ⟨q.r, ⟨q.w.sink ++ textPackets pre, []⟩⟩) ∧
      (writePacketText q x).1 = some (Error.New "Packet length exceeds maximal length") := by
  have hp : ∀ s ∈ pre, s.length + 1 ≤ MaxPacketLength :=
    fun s hs => (writePacketText_accepted_iff q s).mp (hpre s hs)
  have hx2 : ¬ x.length + 1 ≤ MaxPacketLength :=
    fun hle => hx ((writePacketText_accepted_iff q x).mpr hle)
  have he : (writePacketText q x).1 = some (Error.New "Packet length exceeds maximal length") := by
    rw [writePacketText_too_large q x hx2]
  refine ⟨?_, ?_, he⟩
  · rw [writePacketList_ok pre q hp, encodeList_eq_textPackets pre hp, hbuf]
    simp
  · rw [writePacketList_rejected pre x post q hbuf hp hx2, he]

/-- Witness for C14: the list `a`, then a string of 65516 bytes, then `b`. -/
theorem writePacketList_output_witness :
    writePacketList (newPktline []) [ascii "a"] =
        (none, ⟨(newPktline []).r,
          ⟨(newPktline []).w.sink ++ (textPackets [ascii "a"] ++ ascii "0000"), []⟩⟩) ∧
      writePacketList (newPktline []) ([ascii "a"] ++ List.replicate 65516 0 :: [ascii "b"]) =
        ((writePacketText (newPktline []) (List.replicate 65516 0)).1,
          ⟨(newPktline []).r, ⟨(newPktline []).w.sink ++ textPackets [ascii "a"], []⟩⟩) ∧
      (writePacketText (newPktline []) (List.replicate 65516 0)).1 =
        some (Error.New "Packet length exceeds maximal length") :=
  writePacketList_output (newPktline []) [ascii "a"] [ascii "b"] (List.replicate 65516 0) rfl
    (by decide)
    (fun h => absurd ((writePacketText_accepted_iff _ _).mp h)
      (by rw [List.length_replicate]; decide))

/-! ## Claims on the list reader, newline stripping and the short-header error -/

/-- C15: whatever the input stream, `readPacketList` returns a result, and a result that
carries an error carries the nil list. In particular, when the text packets of the
non-empty strings `l` are followed by bytes on which `readPacketText` fails with `err`
(the end of the stream included), `readPacketList` returns `err` with the nil list, not
the strings of `l` it had accumulated. -/
theorem readPacketList_all_or_nothing (p : pktline) (l : List (List UInt8))
    (tail d : List UInt8) (w : Writer) (err : Error) (p1 : pktline)
    (hl : ∀ s ∈ l, s ≠ [] ∧ s.length + 1 ≤ MaxPacketLength)
    (ht : readPacketText ⟨tail, w⟩ = ((d, some err), p1)) :
    readPacketList ⟨textPackets l ++ tail, w⟩ = some (([], some err), p1) ∧
      ∃ r, readPacketList p = some r ∧ (r.1.2 = none ∨ r.1.1 = []) := by
  constructor
  · unfold readPacketList
    have hlen := textPackets_length l (fun s hs => (hl s hs).2)
    have e : (textPackets l ++ tail).length + 1 =
        l.length + (((textPackets l ++ tail).length - l.length) + 1) := by
      simp only [List.length_append]
      omega
    simp only
    rw [e, readPacketListLoop_textPackets l _ [] tail w hl, readPacketListLoop, ht]
  · have hs := readPacketList_isSome p
    obtain ⟨r, hr⟩ := Option.isSome_iff_exists.mp hs
    exact ⟨r, hr, readPacketListLoop_error_nil _ p [] r hr⟩

/-- Witness for C15: the text packet of `a` and then the end of the stream; the general
part at a stream that ends inside the second header. -/
theorem readPacketList_all_or_nothing_witness :
    readPacketList ⟨textPackets [ascii "a"] ++ [], ⟨[], []⟩⟩ =
        some (([], some Error.EOF), ⟨[], ⟨[], []⟩⟩) ∧
      ∃ r, readPacketList (newPktline (ascii "0006a\n00")) = some r ∧
        (r.1.2 = none ∨ r.1.1 = []) :=
  readPacketList_all_or_nothing (newPktline (ascii "0006a\n00")) [ascii "a"] [] []
    ⟨[], []⟩ Error.EOF ⟨[], ⟨[], []⟩⟩ (by decide) (by decide)

/-- C16: when `readPacket` returns the payload `x` with no error, `readPacketText` returns
`x` without its last byte when that byte is a newline and `x` unchanged otherwise, with no
error; when `readPacket` returns the flush sentinel, `readPacketText` returns the empty
string with no error. -/
theorem readPacketText_strips_one_newline (p p1 q q1 : pktline) (x : List UInt8)
    (h : readPacket p = ((some x, none), p1)) (hq : readPacket q = ((none, none), q1)) :
    readPacketText p = ((stripOneNewline x, none), p1) ∧
      readPacketText q = (([], none), q1) := by
  constructor
  · unfold readPacketText
    rw [h]
    simp only [Option.getD_some, TrimSuffix_eq_stripOneNewline]
  · unfold readPacketText
    rw [hq]
    rfl

/-- Witness for C16: the payload `a` with two newlines is returned as `a` with one newline;
the flush packet gives the empty string. -/
theorem readPacketText_strips_one_newline_witness :
    readPacketText (newPktline (ascii "0007a\n\n")) = ((ascii "a\n", none), newPktline []) ∧
      readPacketText (newPktline (ascii "0000")) = (([], none), newPktline []) :=
  readPacketText_strips_one_newline (newPktline (ascii "0007a\n\n")) (newPktline [])
    (newPktline (ascii "0000")) (newPktline []) (ascii "a\n\n") (by decide) (by decide)

/-- C17, the code at the failing input: on a stream of the two bytes `00` the error that
`readPacket` returns is `io.ErrUnexpectedEOF`, which is not `io.ErrShortBuffer`. -/
theorem readPacket_short_header_error :
    readPacket (newPktline (ascii "00")) =
        ((none, some Error.ErrUnexpectedEOF), newPktline []) ∧
      Error.ErrUnexpectedEOF ≠ Error.ErrShortBuffer := by
  decide

/-! ## Claims on framing, lists with trailing bytes and termination -/

/-- C18: for every payload `p` with `1 ≤ len(p) ≤ 65516` and every byte sequence `rest`,
`writePacket(p)` returns no error, and `readPacket` over the bytes written followed by
`rest` returns `p` with no error and leaves exactly `rest` unread; and payloads of such
lengths written in turn are read back, by as many `readPacket` calls, in order and
unchanged, whatever bytes they hold. -/
theorem framing_independent_of_content (p rest input : List UInt8)
    (ps : List (List UInt8)) (w : Writer)
    (h1 : 1 ≤ p.length) (h2 : p.length ≤ 65516)
    (hps : ∀ d ∈ ps, 1 ≤ d.length ∧ d.length ≤ 65516) :
    (writePacket (newPktline input) p).1 = none ∧
      readPacket ⟨(writePacket (newPktline input) p).2.w.sink ++ rest, w⟩ =
        ((some p, none), ⟨rest, w⟩) ∧
      (writePackets (newPktline input) ps).1 = none ∧
      readPackets ps.length ⟨(writePackets (newPktline input) ps).2.w.sink ++ rest, w⟩ =
        (ps.map (fun d => (some d, none)), ⟨rest, w⟩) := by
  have hw := writePacket_ok (newPktline input) p h2
  have hws := writePackets_ok ps (newPktline input) rfl (fun d hd => (hps d hd).2)
  refine ⟨by rw [hw], ?_, by rw [hws], ?_⟩
  · rw [hw]
    have hf := readPacket_frame p rest w h1 (by omega)
    simpa [newPktline] using hf
  · rw [hws]
    have hf := readPackets_framedPackets ps rest w hps
    simpa [newPktline] using hf

/-- Witness for C18: payloads that look like a flush packet, a newline and a short
header, in front of the bytes `zz`. -/
theorem framing_independent_of_content_witness :
    (writePacket (newPktline []) (ascii "0000")).1 = none ∧
      readPacket ⟨(writePacket (newPktline []) (ascii "0000")).2.w.sink ++ ascii "zz",
          ⟨[], []⟩⟩ =
        ((some (ascii "0000"), none), ⟨ascii "zz", ⟨[], []⟩⟩) ∧
      (writePackets (newPktline []) [ascii "0000", ascii "\n", ascii "0004"]).1 = none ∧
      readPackets [ascii "0000", ascii "\n", ascii "0004"].length
          ⟨(writePackets (newPktline []) [ascii "0000", ascii "\n", ascii "0004"]).2.w.sink ++
            ascii "zz", ⟨[], []⟩⟩ =
        ([ascii "0000", ascii "\n", ascii "0004"].map (fun d => (some d, none)),
          ⟨ascii "zz", ⟨[], []⟩⟩) :=
  framing_independent_of_content (ascii "0000") (ascii "zz") []
    [ascii "0000", ascii "\n", ascii "0004"] ⟨[], []⟩ (by decide) (by decide) (by decide)

/-- C19: for every list `l` of strings that are non-empty and at most 65515 bytes long,
and every byte sequence `rest`, `writePacketList(l)` returns no error and `readPacketList`
over the bytes written followed by `rest` returns exactly `l`, in order, with no error,
and leaves exactly `rest` unread. -/
theorem writePacketList_readPacketList_rest (l : List (List UInt8)) (rest input : List UInt8)
    (w : Writer) (h : ∀ s ∈ l, 1 ≤ s.length ∧ s.length ≤ 65515) :
    (writePacketList (newPktline input) l).1 = none ∧
      readPacketList ⟨(writePacketList (newPktline input) l).2.w.sink ++ rest, w⟩ =
        some ((l, none), ⟨rest, w⟩) := by
  have hfit : ∀ s ∈ l, s ≠ [] ∧ s.length + 1 ≤ MaxPacketLength := by
    intro s hs
    obtain ⟨h1, h2⟩ := h s hs
    refine ⟨fun h0 => ?_, by unfold MaxPacketLength; omega⟩
    rw [h0] at h1
    simp at h1
  rw [writePacketList_ok l _ (fun s hs => (hfit s hs).2)]
  refine ⟨rfl, ?_⟩
  have hr := readPacketList_encodeList l rest w hfit
  simpa [newPktline] using hr

/-- Witness for C19: the list `a`, `b`, in front of the bytes of one more text packet. -/
theorem writePacketList_readPacketList_rest_witness :
    (writePacketList (newPktline []) [ascii "a", ascii "b"]).1 = none ∧
      readPacketList
          ⟨(writePacketList (newPktline []) [ascii "a", ascii "b"]).2.w.sink ++ ascii "0006c\n",
            ⟨[], []⟩⟩ =
        some (([ascii "a", ascii "b"], none), ⟨ascii "0006c\n", ⟨[], []⟩⟩) :=
  writePacketList_readPacketList_rest [ascii "a", ascii "b"] (ascii "0006c\n") [] ⟨[], []⟩
    (by decide)

/-- C20: one iteration of the loop of `readPacketList`, from any state, ends in an error,
in an empty text, or with at least 5 bytes of the stream consumed; so on every finite
stream the loop is left within `len(stream)/5 + 1` packet reads, with the result
`readPacketList` returns, and every element of the returned list is a non-empty string. -/
theorem readPacketList_terminates (p : pktline) :
    ((readPacketText p).1.2 ≠ none ∨ (readPacketText p).1.1 = [] ∨
        (readPacketText p).2.r.length + 5 ≤ p.r.length) ∧
      ∃ r, readPacketListLoop (p.r.length / 5 + 1) p [] = some r ∧
        readPacketList p = some r ∧ ∀ s ∈ r.1.1, s ≠ [] := by
  constructor
  · rcases hrt : readPacketText p with ⟨⟨data, err⟩, p1⟩
    cases err with
    | some e => exact Or.inl (by simp)
    | none =>
      by_cases hd : data.length = 0
      · exact Or.inr (Or.inl (List.length_eq_zero.mp hd))
      · exact Or.inr (Or.inr (readPacketText_consumes p p1 data hrt hd).1)
  · have hs := readPacketListLoop_isSome (p.r.length / 5 + 1) p [] (by omega)
    obtain ⟨r, hr⟩ := Option.isSome_iff_exists.mp hs
    refine ⟨r, hr, ?_, readPacketListLoop_nonempty _ p [] r (by simp) hr⟩
    unfold readPacketList
    have e : p.r.length + 1 = (p.r.length / 5 + 1) + (p.r.length - p.r.length / 5) := by
      omega
    rw [e]
    exact readPacketListLoop_fuel_mono _ p [] r _ hr

end PktLine
